import Mathlib

/-!
Shallow embedding of the transactional table engine of `nemoa/db/table.py`
(classes `Record`, `Cursor`, `Table`, `Proxy`), together with proofs about
its staged-mutation (insert / update / delete / commit / rollback), cursor
and proxy behaviour.  Python lists become Lean lists, in-place mutation of
`self` becomes explicit state passing, raised exceptions become `Except`
errors, and `random.randrange` draws are taken from an explicit stream of
naturals reduced modulo the range.
-/

namespace NemoaDb

/- Record state flags, `table.py` constants. -/

def RECORD_STATE_FLAG_CREATE : Nat := 1

def RECORD_STATE_FLAG_UPDATE : Nat := 2

def RECORD_STATE_FLAG_DELETE : Nat := 4

/- Cursor mode flags. -/

def CURSOR_MODE_FLAG_BUFFERED : Nat := 1

def CURSOR_MODE_FLAG_INDEXED : Nat := 2

def CURSOR_MODE_FLAG_SCROLLABLE : Nat := 4

def CURSOR_MODE_FLAG_RANDOM : Nat := 8

/- Proxy mode flags. -/

def PROXY_MODE_FLAG_CACHE : Nat := 1

def PROXY_MODE_FLAG_INCREMENTAL : Nat := 2

def PROXY_MODE_FLAG_READONLY : Nat := 4

/-- Cell values stored in a table.  The claims under study only involve the
column types `int` and `str`, so those are the value shapes embedded here. -/
inductive Value where
  | int (z : Int)
  | str (s : String)
deriving DecidableEq

/-- A declared column type: `typing.Any` (untyped, skipped by `_validate`),
`int`, or `str`. -/
inductive VType where
  | anyT
  | intT
  | strT
deriving DecidableEq

/-- The runtime type of a value, as seen by `check.has_type`. -/
def Value.vtype : Value → VType
  | .int _ => .intT
  | .str _ => .strT

/-- `Record._validate` accepts a value for a column: untyped columns are not
checked, typed columns require the matching runtime type. -/
def VType.accepts : VType → Value → Bool
  | .anyT, _ => true
  | ty, v => ty = v.vtype

/-- A compiled column: name, declared type and optional default value.  This
is the data `create_record_class` extracts from a column definition and hands
to `dataclasses.make_dataclass`. -/
structure Col where
  name : String
  type : VType
  default : Option Value
deriving DecidableEq

/-- One record: the `__slots__` content of a dynamically created `Record`
dataclass, i.e. the row id `_id`, the lifecycle bitset `_state` and the field
values in declared column order. -/
structure Record where
  id : Nat
  state : Nat
  vals : List Value
deriving DecidableEq

inductive TableError where
  | typeError
  | indexError
  | rowLookupError
deriving DecidableEq

/-- Record construction from keyword arguments, embedding the dataclass
`__init__` plus `Record._validate`: every supplied key must be a declared
column, every declared column takes the supplied value (type checked) or
falls back to its declared default, and a missing value without default is
an error. -/
def mkPayload (schema : List Col) (vals : List (String × Value)) :
    Except TableError (List Value) :=
  if vals.all (fun kv => schema.any (fun c => c.name = kv.fst)) then
    schema.foldr
      (fun c acc => do
        let rest ← acc
        match List.lookup c.name vals with
        | some v =>
          if c.type.accepts v then pure (v :: rest) else throw .typeError
        | none =>
          match c.default with
          | some d => pure (d :: rest)
          | none => throw .typeError)
      (pure [])
  else throw .typeError

/-- The `Table` state: name, compiled record structure, metadata sidecar,
committed store `_data`, staging overlay `_diff` and master index `_index`. -/
structure Table where
  name : String
  schema : List Col
  metadata : List (String × Value)
  data : List (Option Record)
  diff : List (Option Record)
  index : List Nat
deriving DecidableEq

/-- A fresh table object before `create`; the default name is the literal
string the source uses. -/
def emptyTable : Table :=
  { name := "unkown", schema := [], metadata := [], data := [], diff := [],
    index := [] }

/-- `Table.row`: `self._diff[rowid] or self._data[rowid]`, as the total
function used internally where the row id is in range (out-of-range ids give
`none` here; the bounds-faithful version is `Table.rowE`). -/
def Table.row (t : Table) (rowid : Nat) : Option Record :=
  match t.diff.getD rowid none with
  | some r => some r
  | none => t.data.getD rowid none

/-- Python list subscription: the element, or an `IndexError` out of range. -/
def listGetE (l : List (Option Record)) (i : Nat) :
    Except TableError (Option Record) :=
  match l[i]? with
  | some v => pure v
  | none => throw .indexError

/-- `Table.row` with faithful bounds behaviour: `self._diff[rowid]` raises
`IndexError` out of range, a set diff slot is returned, an empty one falls
back to `self._data[rowid]`. -/
def Table.rowE (t : Table) (rowid : Nat) : Except TableError (Option Record) := do
  let d ← listGetE t.diff rowid
  match d with
  | some r => pure (some r)
  | none => listGetE t.data rowid

/-- Write-back of an in-place record mutation: the mutated object lives in
the diff slot when that slot is set, otherwise in the data slot. -/
def Table.setRow (t : Table) (rowid : Nat) (r : Record) : Table :=
  match t.diff.getD rowid none with
  | some _ => { t with diff := t.diff.set rowid (some r) }
  | none => { t with data := t.data.set rowid (some r) }

/-- `Table.truncate`: reset `_data`, `_diff` and `_index`. -/
def Table.truncate (t : Table) : Table :=
  { t with data := [], diff := [], index := [] }

/-- `Table.create`: set name, metadata and record structure, then
`truncate` (via `_create_header`).  The identifier check on the name is
orthogonal to the claims and omitted. -/
def Table.create (t : Table) (name : String) (schema : List Col)
    (metadata : List (String × Value)) : Table :=
  Table.truncate { t with name := name, schema := schema, metadata := metadata }

/-- `Table._append_row` after record construction: the record was built with
`_id = len(self._data)` (`_get_new_rowid`), then a `None` placeholder is
appended to `_data`, the record to `_diff`, and its id to `_index`. -/
def Table.appendRow (t : Table) (p : List Value) : Table :=
  let r : Record :=
    { id := t.data.length, state := RECORD_STATE_FLAG_CREATE, vals := p }
  { t with data := t.data ++ [none], diff := t.diff ++ [some r],
           index := t.index ++ [r.id] }

/-- `Table.insert` of a single row given as a mapping. -/
def Table.insert1 (t : Table) (vals : List (String × Value)) :
    Except TableError Table := do
  let p ← mkPayload t.schema vals
  pure (t.appendRow p)

/-- `Table.insert` of a list of rows. -/
def Table.insertAll (t : Table) (rows : List (List (String × Value))) :
    Except TableError Table :=
  rows.foldlM Table.insert1 t

/-- A cursor predicate; `none` is the absent `where` clause matching all. -/
def matchesPred (p : Option (Record → Bool)) (r : Record) : Bool :=
  match p with
  | some f => f r
  | none => true

/-- `Record._delete` plus the delete hook `Table._remove_rowid`: when the
DELETE flag is not yet set, set it on the record in place and remove the id
from the master index.  `list.remove` raises when the id is absent, but each
call site reaches this only for indexed rows, where `List.erase` agrees. -/
def Table.markDelete (t : Table) (rowid : Nat) : Table :=
  match t.row rowid with
  | none => t
  | some r =>
    if r.state &&& RECORD_STATE_FLAG_DELETE ≠ 0 then t
    else
      let t2 := t.setRow rowid { r with state := r.state ||| RECORD_STATE_FLAG_DELETE }
      { t2 with index := t2.index.erase rowid }

/-- `Table.delete(where)`: iterate a cursor over a snapshot of the index and
mark every matching row deleted.  A dangling indexed id would make the
source raise inside the cursor; such ids cannot occur on well-formed tables
and are skipped here. -/
def Table.delete (t : Table) (p : Option (Record → Bool)) : Table :=
  t.index.foldl
    (fun acc rowid =>
      match acc.row rowid with
      | none => acc
      | some r => if matchesPred p r then acc.markDelete rowid else acc)
    t

/-- `dataclasses.replace(row, **kwds)` on the field values: each declared
column keeps its value unless the changes carry its name.  The source
re-validates the changed values and rejects unknown keys; the claims treated
here only involve well-typed changes on declared columns, so a change whose
name is not a declared column is ignored here instead of raising. -/
def applyChanges (schema : List Col) (vals : List Value)
    (changes : List (String × Value)) : List Value :=
  (schema.zip vals).map
    (fun cv =>
      match List.lookup cv.fst.name changes with
      | some v => v
      | none => cv.snd)

/-- `Record._update` plus the update hook `Table._update_row_diff`: when the
UPDATE flag is not yet set, set it on the record in place, then build the
replacement record from the re-read row, force its id to the row id and its
state to the flagged state, and store it in the diff slot. -/
def Table.markUpdate (t : Table) (rowid : Nat)
    (changes : List (String × Value)) : Table :=
  match t.row rowid with
  | none => t
  | some r =>
    if r.state &&& RECORD_STATE_FLAG_UPDATE ≠ 0 then t
    else
      let r1 : Record := { r with state := r.state ||| RECORD_STATE_FLAG_UPDATE }
      let t1 := t.setRow rowid r1
      let r2 : Record :=
        { r1 with id := rowid, vals := applyChanges t.schema r1.vals changes }
      { t1 with diff := t1.diff.set rowid (some r2) }

/-- `Table.update(where, **kwds)`: cursor over a snapshot of the index,
marking every matching row updated. -/
def Table.update (t : Table) (p : Option (Record → Bool))
    (changes : List (String × Value)) : Table :=
  t.index.foldl
    (fun acc rowid =>
      match acc.row rowid with
      | none => acc
      | some r => if matchesPred p r then acc.markUpdate rowid changes else acc)
    t

/-- The row id sequence `Table.commit` iterates:
`for rowid in list(range(len(self._data)))`. -/
def Table.commitOrder (t : Table) : List Nat :=
  List.range t.data.length

/-- One iteration of the `Table.commit` loop body for a row id: skip absent
rows; on a DELETE-flagged row null the data slot and drop the id from the
index (the `list.remove` sits in a `try`/`except ValueError`, hence the
erase is a no-op when the id is already absent); otherwise on a CREATE- or
UPDATE-flagged row promote the diff slot into the data slot and zero its
state (the source would raise on an empty diff slot there, which cannot
occur on well-formed tables; the `Option.map` leaves the impossible case
inert). -/
def Table.commitStep (t : Table) (rowid : Nat) : Table :=
  match t.row rowid with
  | none => t
  | some r =>
    if r.state &&& RECORD_STATE_FLAG_DELETE ≠ 0 then
      { t with data := t.data.set rowid none, index := t.index.erase rowid }
    else if r.state &&& (RECORD_STATE_FLAG_CREATE ||| RECORD_STATE_FLAG_UPDATE) ≠ 0 then
      let promoted := (t.diff.getD rowid none).map (fun d => { d with state := 0 })
      { t with data := t.data.set rowid promoted }
    else t

/-- `Table.commit`: run the loop body over every row id in `commitOrder`,
then reset the diff table to all-empty. -/
def Table.commit (t : Table) : Table :=
  let t2 := t.commitOrder.foldl Table.commitStep t
  { t2 with diff := List.replicate t2.data.length none }

/-- One iteration of the `Table.rollback` loop body: skip absent rows; drop
a CREATE-flagged row id from the index; otherwise zero the state of the
record in the data slot (the source would raise on an empty data slot,
which cannot occur on well-formed tables). -/
def Table.rollbackStep (t : Table) (rowid : Nat) : Table :=
  match t.row rowid with
  | none => t
  | some r =>
    if r.state &&& RECORD_STATE_FLAG_CREATE ≠ 0 then
      { t with index := t.index.erase rowid }
    else
      let cleaned := (t.data.getD rowid none).map (fun d => { d with state := 0 })
      { t with data := t.data.set rowid cleaned }

/-- `Table.rollback`: run the loop body over `range(len(self._data))`, then
reset the diff table to all-empty. -/
def Table.rollback (t : Table) : Table :=
  let t2 := (List.range t.data.length).foldl Table.rollbackStep t
  { t2 with diff := List.replicate t2.data.length none }

/-- `Table.pack`: commit pending changes, drop empty records from the data
store, renumber the surviving records densely from zero, rebuild the index
as that range and reset the diff table. -/
def Table.pack (t : Table) : Table :=
  let t1 := t.commit
  let kept := t1.data.filterMap id
  let renum :=
    ((List.range kept.length).zip kept).map
      (fun ir => some { ir.snd with id := ir.fst })
  { t1 with data := renum, index := List.range kept.length,
            diff := List.replicate kept.length none }

/-- The full result set of a fixed-index cursor
(`Cursor._get_next_from_fixed_index` driven to `StopIteration`): walk the
index, look each row up through the getter and keep the matching ones.  On
well-formed tables the getter never yields an absent row for an indexed id;
the absent case is skipped here where the source would raise in the filter. -/
def fixedIndexAll (index : List Nat) (getter : Nat → Option Record)
    (p : Option (Record → Bool)) : List Record :=
  index.filterMap
    (fun rowid =>
      match getter rowid with
      | some r => if matchesPred p r then some r else none
      | none => none)

/-- The visible matching rows of a table: the fixed-index result set over
the master index with the table row getter. -/
def Table.matchingRows (t : Table) (p : Option (Record → Bool)) : List Record :=
  fixedIndexAll t.index t.row p

/-- `Table.select` along the default (indexed, unsorted) cursor path: the
matching rows mapped through the column projection built by
`_create_mapper` (requested columns, else all declared columns). -/
def Table.select (t : Table) (cols : Option (List String))
    (p : Option (Record → Bool)) : List (List Value) :=
  let names :=
    match cols with
    | some cs => cs
    | none => t.schema.map Col.name
  (t.matchingRows p).map
    (fun r =>
      names.filterMap
        (fun n =>
          (t.schema.findIdx? (fun col => col.name = n)).bind
            (fun i => r.vals[i]?)))

inductive CursorError where
  | modeError
deriving DecidableEq

/-- `Cursor._default_mode`: a sorter forces a buffered cursor, otherwise the
default is indexed. -/
def cursorDefaultMode (hasSorter : Bool) : Nat :=
  if hasSorter then CURSOR_MODE_FLAG_BUFFERED else CURSOR_MODE_FLAG_INDEXED

/-- `Cursor._check_validity`: sorting requires a buffered cursor and is not
supported by random cursors. -/
def cursorCheckValidity (mode : Nat) (hasSorter : Bool) :
    Except CursorError Unit :=
  if hasSorter ∧ mode &&& CURSOR_MODE_FLAG_BUFFERED = 0 then
    Except.error .modeError
  else if hasSorter ∧ mode &&& CURSOR_MODE_FLAG_RANDOM ≠ 0 then
    Except.error .modeError
  else Except.ok ()

/-- A constructed cursor: its mode word, the index it traverses and, for
buffered modes, the materialized result set. -/
structure Cursor where
  mode : Nat
  index : List Nat
  buffer : List Record
deriving DecidableEq

/-- `Cursor.__init__`: resolve the mode (explicit flag word or the default
from the sorter), check validity, then materialize.  `_create_index` copies
the index list, which is the identity here; `_create_buffer` drives an inner
indexed cursor with the same index, getter and predicate to exhaustion and
applies the sorter to the result. -/
def Cursor.make (tindex : List Nat) (getter : Nat → Option Record)
    (p : Option (Record → Bool)) (sorter : Option (List Record → List Record))
    (mode? : Option Nat) : Except CursorError Cursor := do
  let mode :=
    match mode? with
    | some m => m
    | none => cursorDefaultMode sorter.isSome
  let _ ← cursorCheckValidity mode sorter.isSome
  let buffer :=
    if mode &&& CURSOR_MODE_FLAG_BUFFERED ≠ 0 then
      let base := fixedIndexAll tindex getter p
      match sorter with
      | some f => f base
      | none => base
    else []
  pure { mode := mode, index := tindex, buffer := buffer }

/-- The filter loop of `Cursor._get_next_from_fixed_index` in random mode:
`random.randrange(len(self._index))` is modelled by reading the stream `s`
at the current position and reducing it modulo the index length, and the
draw is used directly as a row id, exactly as the source does.  The loop
repeats until the drawn row matches; `fuel` bounds the repetition, `none`
meaning the loop has not found a match within the bound (an empty index
makes `randrange` raise, and a draw of an absent row makes the source fail
in the filter; both are `none` here and unreachable for the tables of the
claims). -/
def randomDraw (index : List Nat) (getter : Nat → Option Record)
    (p : Option (Record → Bool)) (s : Nat → Nat) :
    Nat → Nat → Option (Record × Nat)
  | _, 0 => none
  | pos, fuel + 1 =>
    if index.length = 0 then none
    else
      let rowid := s pos % index.length
      match getter rowid with
      | some r =>
        if matchesPred p r then some (r, pos + 1)
        else randomDraw index getter p s (pos + 1) fuel
      | none => none

/-- `Cursor.fetch` in random fixed-index mode with a positive size: collect
that many draws. -/
def randomFetch (index : List Nat) (getter : Nat → Option Record)
    (p : Option (Record → Bool)) (s : Nat → Nat) (fuel : Nat) :
    Nat → Nat → Option (List Record)
  | _, 0 => some []
  | pos, size + 1 =>
    match randomDraw index getter p s pos fuel with
    | none => none
    | some (r, pos2) =>
      match randomFetch index getter p s fuel pos2 size with
      | none => none
      | some rs => some (r :: rs)

/-- `Cursor._get_next_from_buffer` in random mode, iterated: uniform draws
from the buffer, one stream value per draw (an empty buffer makes
`randrange` raise, modelled as `none`). -/
def randomBufferFetch (buffer : List Record) (s : Nat → Nat) :
    Nat → Nat → Option (List Record)
  | _, 0 => some []
  | pos, size + 1 =>
    if buffer.length = 0 then none
    else
      match randomBufferFetch buffer s (pos + 1) size with
      | none => none
      | some rs => some (buffer.getD (s pos % buffer.length) ⟨0, 0, []⟩ :: rs)

/-- `Cursor.fetch(size)` as first called on a fresh cursor: a random cursor
with a non-positive size raises `CursorModeError` before anything else;
otherwise the rows come from the buffer (buffered modes) or the fixed-index
traversal, all of them for a non-positive size and at most `size` many
otherwise; random modes draw with replacement from the stream `s`. -/
def Cursor.fetch (c : Cursor) (getter : Nat → Option Record)
    (p : Option (Record → Bool)) (s : Nat → Nat) (fuel : Nat) (size : Int) :
    Option (Except CursorError (List Record)) :=
  if c.mode &&& CURSOR_MODE_FLAG_RANDOM ≠ 0 ∧ size ≤ 0 then
    some (Except.error .modeError)
  else if c.mode &&& CURSOR_MODE_FLAG_RANDOM ≠ 0 then
    if c.mode &&& CURSOR_MODE_FLAG_BUFFERED ≠ 0 then
      (randomBufferFetch c.buffer s 0 size.toNat).map Except.ok
    else
      (randomFetch c.index getter p s fuel 0 size.toNat).map Except.ok
  else
    let rows :=
      if c.mode &&& CURSOR_MODE_FLAG_BUFFERED ≠ 0 then c.buffer
      else fixedIndexAll c.index getter p
    some (Except.ok (if size ≤ 0 then rows else rows.take size.toNat))

inductive ProxyError where
  | readonlyError
  | pushError
deriving DecidableEq

/-- `Proxy.commit`: in READONLY mode raise `ProxyError` before anything
else; in INCREMENTAL mode push first and apply the local table commit only
when the push succeeded; otherwise apply the local commit first and then
push.  The abstract backend write `push` acts on the local table state the
source hands it; exceptions propagate while mutations persist, so the
result is the final local table paired with the outcome. -/
def proxyCommit (proxyMode : Nat) (push : Table → Except ProxyError Unit)
    (t : Table) : Table × Except ProxyError Unit :=
  if proxyMode &&& PROXY_MODE_FLAG_READONLY ≠ 0 then
    (t, Except.error .readonlyError)
  else if proxyMode &&& PROXY_MODE_FLAG_INCREMENTAL ≠ 0 then
    match push t with
    | Except.error e => (t, Except.error e)
    | Except.ok _ => (t.commit, Except.ok ())
  else
    let t2 := t.commit
    (t2, push t2)

/- Concrete tables used by the scenario claims and counterexamples. -/

/-- Scenario A column set: `(uid: int, name: str default '', gid: int
default 0)`. -/
def scenarioCols : List Col :=
  [{ name := "uid", type := VType.intT, default := none },
   { name := "name", type := VType.strT, default := some (Value.str "") },
   { name := "gid", type := VType.intT, default := some (Value.int 0) }]

/-- Scenario A input rows: 52 rows with `gid = i % 3`. -/
def scenarioInputs : List (List (String × Value)) :=
  (List.range 52).map
    (fun i => [("uid", Value.int (Int.ofNat i)),
               ("gid", Value.int (Int.ofNat (i % 3)))])

/-- Scenario A table: create, insert the 52 rows, commit. -/
def scenarioTable : Table :=
  match Table.insertAll (Table.create emptyTable "test" scenarioCols [])
      scenarioInputs with
  | Except.ok t => t.commit
  | Except.error _ => emptyTable

/-- The Scenario A predicate `lambda row: row.gid == 1` (`gid` is the third
declared column). -/
def gidIs1 : Record → Bool :=
  fun r => r.vals.getD 2 (Value.int 0) == Value.int 1

/-- A single-column `(uid: int)` schema for the small counterexample
tables. -/
def uidCols : List Col :=
  [{ name := "uid", type := VType.intT, default := none }]

/-- A table holding one committed row `uid = 1`. -/
def oneRowTable : Table :=
  match Table.insertAll (Table.create emptyTable "t1" uidCols [])
      [[("uid", Value.int 1)]] with
  | Except.ok t => t.commit
  | Except.error _ => emptyTable

/-- Two committed rows `uid = 10` and `uid = 20`; the first is deleted,
committed (tombstoned) and compacted away by `pack`. -/
def packedTable : Table :=
  match Table.insertAll (Table.create emptyTable "t8" uidCols [])
      [[("uid", Value.int 10)], [("uid", Value.int 20)]] with
  | Except.ok t =>
    Table.pack
      (Table.commit
        (Table.delete t.commit
          (some (fun r => r.vals.getD 0 (Value.int 0) == Value.int 10))))
  | Except.error _ => emptyTable

/-- A two-row staged table (two uncommitted inserts) for the commit-order
counterexample. -/
def twoRowStaged : Table :=
  match Table.insertAll (Table.create emptyTable "t2" uidCols [])
      [[("uid", Value.int 1)], [("uid", Value.int 2)]] with
  | Except.ok t => t
  | Except.error _ => emptyTable

/- Derived descriptions used in the statements about `commit`. -/

/-- The value the commit loop leaves in the data slot of a row id: absent
rows keep their slot, DELETE-flagged rows are tombstoned, CREATE- or
UPDATE-flagged rows receive the promoted diff record with a cleared state,
clean rows keep their slot. -/
def Table.commitValAt (t : Table) (i : Nat) : Option Record :=
  match t.row i with
  | none => t.data.getD i none
  | some r =>
    if r.state &&& RECORD_STATE_FLAG_DELETE ≠ 0 then none
    else if r.state &&& (RECORD_STATE_FLAG_CREATE ||| RECORD_STATE_FLAG_UPDATE) ≠ 0 then
      (t.diff.getD i none).map (fun d => { d with state := 0 })
    else t.data.getD i none

/-- Structural well-formedness of a table: the diff table is as long as the
data table, and every indexed row id is a valid data position. -/
def Table.wfb (t : Table) : Bool :=
  (t.diff.length == t.data.length) &&
    t.index.all (fun i => decide (i < t.data.length))

theorem wfb_iff (t : Table) :
    t.wfb = true ↔
      t.diff.length = t.data.length ∧ ∀ i ∈ t.index, i < t.data.length := by
  simp [Table.wfb, List.all_eq_true]

/- Case analysis and frame lemmas for the commit loop body. -/

theorem commitStep_shape (t : Table) (i : Nat) :
    t.commitStep i = t
    ∨ t.commitStep i = { t with data := t.data.set i none, index := t.index.erase i }
    ∨ ∃ v, t.commitStep i = { t with data := t.data.set i v } := by
  unfold Table.commitStep
  rcases h : t.row i with _ | r
  · exact Or.inl rfl
  · dsimp only
    by_cases h1 : r.state &&& RECORD_STATE_FLAG_DELETE ≠ 0
    · rw [if_pos h1]
      exact Or.inr (Or.inl rfl)
    · rw [if_neg h1]
      by_cases h2 : r.state &&& (RECORD_STATE_FLAG_CREATE ||| RECORD_STATE_FLAG_UPDATE) ≠ 0
      · rw [if_pos h2]
        exact Or.inr (Or.inr ⟨_, rfl⟩)
      · rw [if_neg h2]
        exact Or.inl rfl

theorem commitStep_diff (t : Table) (i : Nat) :
    (t.commitStep i).diff = t.diff := by
  rcases commitStep_shape t i with h | h | ⟨v, h⟩ <;> rw [h]

theorem commitStep_data_length (t : Table) (i : Nat) :
    (t.commitStep i).data.length = t.data.length := by
  rcases commitStep_shape t i with h | h | ⟨v, h⟩ <;> rw [h] <;>
    simp [List.length_set]

theorem commitStep_data_ne (t : Table) (i j : Nat) (hne : j ≠ i) :
    (t.commitStep i).data.getD j none = t.data.getD j none := by
  rcases commitStep_shape t i with h | h | ⟨v, h⟩ <;> rw [h] <;>
    simp [List.getD_eq_getElem?_getD, List.getElem?_set_ne (Ne.symm hne)]

theorem commitStep_index_sublist (t : Table) (i : Nat) :
    List.Sublist (t.commitStep i).index t.index := by
  rcases commitStep_shape t i with h | h | ⟨v, h⟩
  · rw [h]
  · rw [h]
    exact List.erase_sublist _ _
  · rw [h]

theorem commitStep_row_ne (t : Table) (i j : Nat) (hne : j ≠ i) :
    (t.commitStep i).row j = t.row j := by
  unfold Table.row
  rw [commitStep_diff, commitStep_data_ne t i j hne]

theorem commitValAt_congr (t t2 : Table) (i : Nat)
    (hd : t2.diff.getD i none = t.diff.getD i none)
    (ha : t2.data.getD i none = t.data.getD i none) :
    t2.commitValAt i = t.commitValAt i := by
  unfold Table.commitValAt Table.row
  rw [hd, ha]

theorem commitStep_commitValAt_ne (t : Table) (i j : Nat) (hne : j ≠ i) :
    (t.commitStep i).commitValAt j = t.commitValAt j := by
  refine commitValAt_congr _ _ _ ?_ (commitStep_data_ne t i j hne)
  rw [commitStep_diff]

theorem commitStep_data_self (t : Table) (i : Nat) (hi : i < t.data.length) :
    (t.commitStep i).data.getD i none = t.commitValAt i := by
  unfold Table.commitStep Table.commitValAt
  rcases h : t.row i with _ | r
  · rfl
  · dsimp only
    by_cases h1 : r.state &&& RECORD_STATE_FLAG_DELETE ≠ 0
    · rw [if_pos h1, if_pos h1]
      simp [List.getD_eq_getElem?_getD, List.getElem?_set_self hi]
    · rw [if_neg h1, if_neg h1]
      by_cases h2 : r.state &&& (RECORD_STATE_FLAG_CREATE ||| RECORD_STATE_FLAG_UPDATE) ≠ 0
      · rw [if_pos h2, if_pos h2]
        simp [List.getD_eq_getElem?_getD, List.getElem?_set_self hi]
      · rw [if_neg h2, if_neg h2]

/- Frame lemmas for the whole commit fold. -/

theorem foldl_commitStep_diff (l : List Nat) (t : Table) :
    (l.foldl Table.commitStep t).diff = t.diff := by
  induction l generalizing t with
  | nil => rfl
  | cons j l ih => rw [List.foldl_cons, ih, commitStep_diff]

theorem foldl_commitStep_data_length (l : List Nat) (t : Table) :
    (l.foldl Table.commitStep t).data.length = t.data.length := by
  induction l generalizing t with
  | nil => rfl
  | cons j l ih => rw [List.foldl_cons, ih, commitStep_data_length]

theorem foldl_commitStep_data_notmem (l : List Nat) (t : Table) (i : Nat)
    (h : i ∉ l) :
    (l.foldl Table.commitStep t).data.getD i none = t.data.getD i none := by
  induction l generalizing t with
  | nil => rfl
  | cons j l ih =>
    have h1 : i ≠ j := by
      intro he
      exact h (by rw [he]; exact List.mem_cons_self _ _)
    have h2 : i ∉ l := fun hm => h (List.mem_cons_of_mem _ hm)
    rw [List.foldl_cons, ih _ h2, commitStep_data_ne _ _ _ h1]

theorem foldl_commitStep_index_notmem (l : List Nat) (t : Table) (i : Nat)
    (h : i ∉ t.index) :
    i ∉ (l.foldl Table.commitStep t).index := by
  induction l generalizing t with
  | nil => exact h
  | cons j l ih =>
    rw [List.foldl_cons]
    exact ih _ (fun hm => h ((commitStep_index_sublist t j).subset hm))

theorem foldl_commitStep_index_nodup (l : List Nat) (t : Table)
    (h : t.index.Nodup) :
    (l.foldl Table.commitStep t).index.Nodup := by
  induction l generalizing t with
  | nil => exact h
  | cons j l ih =>
    rw [List.foldl_cons]
    exact ih _ ((commitStep_index_sublist t j).nodup h)

theorem foldl_commitStep_data_mem (l : List Nat) (t : Table) (i : Nat)
    (hmem : i ∈ l) (hnd : l.Nodup) (hi : i < t.data.length) :
    (l.foldl Table.commitStep t).data.getD i none = t.commitValAt i := by
  induction l generalizing t with
  | nil => cases hmem
  | cons j l ih =>
    rw [List.foldl_cons]
    rcases List.mem_cons.mp hmem with he | hm
    · subst he
      rw [foldl_commitStep_data_notmem l _ i (List.nodup_cons.mp hnd).1]
      exact commitStep_data_self t i hi
    · have hij : i ≠ j := by
        intro he
        exact (List.nodup_cons.mp hnd).1 (he ▸ hm)
      rw [ih _ hm (List.nodup_cons.mp hnd).2
        (by rw [commitStep_data_length]; exact hi)]
      exact commitStep_commitValAt_ne t j i hij

theorem foldl_commitStep_delete_notmem (l : List Nat) (t : Table) (i : Nat)
    (hmem : i ∈ l) (hnd : l.Nodup) (hnd2 : t.index.Nodup) (r : Record)
    (hr : t.row i = some r)
    (hdel : r.state &&& RECORD_STATE_FLAG_DELETE ≠ 0) :
    i ∉ (l.foldl Table.commitStep t).index := by
  induction l generalizing t with
  | nil => cases hmem
  | cons j l ih =>
    rw [List.foldl_cons]
    rcases List.mem_cons.mp hmem with he | hm
    · subst he
      apply foldl_commitStep_index_notmem
      have hs : (t.commitStep i).index = t.index.erase i := by
        unfold Table.commitStep
        rw [hr]
        dsimp only
        rw [if_pos hdel]
      rw [hs]
      exact hnd2.not_mem_erase
    · have hij : i ≠ j := by
        intro he
        exact (List.nodup_cons.mp hnd).1 (he ▸ hm)
      exact ih _ hm (List.nodup_cons.mp hnd).2
        ((commitStep_index_sublist t j).nodup hnd2)
        (by rw [commitStep_row_ne t j i hij]; exact hr)

/- Commit-level corollaries. -/

theorem commit_diff (t : Table) :
    (t.commit).diff = List.replicate t.data.length none := by
  show List.replicate
      (List.foldl Table.commitStep t t.commitOrder).data.length none = _
  rw [foldl_commitStep_data_length]

theorem commit_data_length (t : Table) :
    (t.commit).data.length = t.data.length := by
  show (List.foldl Table.commitStep t t.commitOrder).data.length = _
  exact foldl_commitStep_data_length _ _

theorem commit_data_getD (t : Table) (i : Nat) (hi : i < t.data.length) :
    (t.commit).data.getD i none = t.commitValAt i := by
  show (List.foldl Table.commitStep t
      (List.range t.data.length)).data.getD i none = _
  exact foldl_commitStep_data_mem _ _ _ (List.mem_range.mpr hi)
    (List.nodup_range _) hi

theorem commit_row (t : Table) (i : Nat) (hi : i < t.data.length) :
    (t.commit).row i = t.commitValAt i := by
  have hd : (t.commit).diff.getD i none = none := by
    rw [commit_diff]
    rw [List.getD_eq_getElem?_getD, List.getElem?_replicate]
    split <;> rfl
  unfold Table.row
  rw [hd]
  exact commit_data_getD t i hi

theorem commit_index_delete (t : Table) (i : Nat) (hi : i < t.data.length)
    (hnd2 : t.index.Nodup) (r : Record) (hr : t.row i = some r)
    (hdel : r.state &&& RECORD_STATE_FLAG_DELETE ≠ 0) :
    i ∉ (t.commit).index := by
  show i ∉ (List.foldl Table.commitStep t (List.range t.data.length)).index
  exact foldl_commitStep_delete_notmem _ _ _ (List.mem_range.mpr hi)
    (List.nodup_range _) hnd2 r hr hdel

/- Shape of insertion results. -/

theorem getD_append_lt (l l2 : List (Option Record)) (j : Nat)
    (h : j < l.length) : (l ++ l2).getD j none = l.getD j none := by
  rw [List.getD_eq_getElem?_getD, List.getD_eq_getElem?_getD,
    List.getElem?_append_left h]

theorem getD_append_self (l : List (Option Record)) (x : Option Record) :
    (l ++ [x]).getD l.length none = x := by
  rw [List.getD_eq_getElem?_getD, List.getElem?_append_right (Nat.le_refl _)]
  simp

theorem insert1_eq (t : Table) (vs : List (String × Value)) :
    t.insert1 vs =
      match mkPayload t.schema vs with
      | Except.error e => Except.error e
      | Except.ok p => Except.ok (t.appendRow p) := by
  unfold Table.insert1
  rcases mkPayload t.schema vs with e | p <;> rfl

theorem insert1_ok (t : Table) (vs : List (String × Value)) (t2 : Table)
    (h : t.insert1 vs = Except.ok t2) :
    ∃ p, mkPayload t.schema vs = Except.ok p ∧ t2 = t.appendRow p := by
  rw [insert1_eq] at h
  rcases hm : mkPayload t.schema vs with e | p <;> rw [hm] at h
  · cases h
  · cases h
    exact ⟨p, rfl, rfl⟩

theorem insertAll_ok_spec (rows : List (List (String × Value))) :
    ∀ (t t2 : Table), t.diff.length = t.data.length →
      t.insertAll rows = Except.ok t2 →
      t2.schema = t.schema
      ∧ t2.diff.length = t2.data.length
      ∧ t2.data.length = t.data.length + rows.length
      ∧ (∀ j, j < t.data.length →
          t2.data.getD j none = t.data.getD j none
          ∧ t2.diff.getD j none = t.diff.getD j none)
      ∧ (∀ k, k < rows.length →
          ∃ p, mkPayload t.schema (rows.getD k []) = Except.ok p
            ∧ t2.diff.getD (t.data.length + k) none =
                some { id := t.data.length + k,
                       state := RECORD_STATE_FLAG_CREATE, vals := p }
            ∧ t2.data.getD (t.data.length + k) none = none) := by
  induction rows with
  | nil =>
    intro t t2 hwf h
    cases h
    refine ⟨rfl, hwf, by simp, fun j hj => ⟨rfl, rfl⟩, fun k hk => ?_⟩
    exact absurd hk (Nat.not_lt_zero k)
  | cons v rest ih =>
    intro t t2 hwf h
    rw [Table.insertAll, List.foldlM_cons] at h
    rcases h1 : t.insert1 v with e | t1 <;> rw [h1] at h
    · cases h
    · have h2 : Table.insertAll t1 rest = Except.ok t2 := h
      obtain ⟨p0, hp0, ht1⟩ := insert1_ok t v t1 h1
      subst ht1
      have hlen1 : (t.appendRow p0).data.length = t.data.length + 1 := by
        simp [Table.appendRow]
      have hwf1 : (t.appendRow p0).diff.length = (t.appendRow p0).data.length := by
        simp [Table.appendRow, hwf]
      obtain ⟨hsch, hwf2, hlen2, hpres, hnew⟩ := ih _ _ hwf1 h2
      have hsch2 : t2.schema = t.schema := by
        rw [hsch]; rfl
      refine ⟨hsch2, hwf2, by rw [hlen2, hlen1]; simp [Nat.add_assoc, Nat.add_comm 1],
        ?_, ?_⟩
      · intro j hj
        have hj1 : j < (t.appendRow p0).data.length := by omega
        obtain ⟨ha, hb⟩ := hpres j hj1
        constructor
        · rw [ha]
          exact getD_append_lt t.data [none] j hj
        · rw [hb]
          exact getD_append_lt t.diff [some _] j (by omega)
      · intro k hk
        cases k with
        | zero =>
          refine ⟨p0, hp0, ?_, ?_⟩
          · obtain ⟨ha, hb⟩ := hpres t.data.length (by omega)
            rw [Nat.add_zero, hb]
            have hd := getD_append_self t.diff
              (some { id := t.data.length,
                      state := RECORD_STATE_FLAG_CREATE, vals := p0 })
            rw [hwf] at hd
            exact hd
          · obtain ⟨ha, hb⟩ := hpres t.data.length (by omega)
            rw [Nat.add_zero, ha]
            exact getD_append_self t.data none
        | succ k2 =>
          have hk2 : k2 < rest.length := by
            simp at hk
            omega
          obtain ⟨p, hp, hdg, hag⟩ := hnew k2 hk2
          have harith : (t.appendRow p0).data.length + k2 = t.data.length + (k2 + 1) := by
            rw [hlen1]; omega
          refine ⟨p, ?_, ?_, ?_⟩
          · rw [List.getD_cons_succ]
            exact hp
          · rw [← harith]
            exact hdg
          · rw [← harith]
            exact hag

/- Preservation of structural well-formedness by every public verb. -/

theorem wfb_mono (t t2 : Table) (hw : t.wfb = true)
    (hd : t2.diff.length = t.diff.length)
    (ha : t2.data.length = t.data.length)
    (hi : ∀ i, i ∈ t2.index → i ∈ t.index) : t2.wfb = true := by
  rw [wfb_iff] at hw ⊢
  obtain ⟨h1, h2⟩ := hw
  refine ⟨by omega, fun i him => ?_⟩
  rw [ha]
  exact h2 i (hi i him)

theorem setRow_data_length (t : Table) (i : Nat) (r : Record) :
    (t.setRow i r).data.length = t.data.length := by
  unfold Table.setRow
  rcases t.diff.getD i none with _ | d <;> simp [List.length_set]

theorem setRow_diff_length (t : Table) (i : Nat) (r : Record) :
    (t.setRow i r).diff.length = t.diff.length := by
  unfold Table.setRow
  rcases t.diff.getD i none with _ | d <;> simp [List.length_set]

theorem setRow_index (t : Table) (i : Nat) (r : Record) :
    (t.setRow i r).index = t.index := by
  unfold Table.setRow
  rcases t.diff.getD i none with _ | d <;> rfl

theorem markDelete_wfb (t : Table) (i : Nat) (h : t.wfb = true) :
    (t.markDelete i).wfb = true := by
  unfold Table.markDelete
  rcases t.row i with _ | r
  · exact h
  · dsimp only
    by_cases h1 : r.state &&& RECORD_STATE_FLAG_DELETE ≠ 0
    · rw [if_pos h1]
      exact h
    · rw [if_neg h1]
      refine wfb_mono t _ h (setRow_diff_length _ _ _) (setRow_data_length _ _ _) ?_
      intro j hj
      have hj2 : j ∈ ((t.setRow i
          { r with state := r.state ||| RECORD_STATE_FLAG_DELETE }).index).erase i := hj
      rw [setRow_index] at hj2
      exact (List.erase_sublist _ _).subset hj2

theorem markUpdate_wfb (t : Table) (i : Nat) (ch : List (String × Value))
    (h : t.wfb = true) : (t.markUpdate i ch).wfb = true := by
  unfold Table.markUpdate
  rcases t.row i with _ | r
  · exact h
  · dsimp only
    by_cases h1 : r.state &&& RECORD_STATE_FLAG_UPDATE ≠ 0
    · rw [if_pos h1]
      exact h
    · rw [if_neg h1]
      refine wfb_mono t _ h ?_ (setRow_data_length _ _ _) ?_
      · rw [List.length_set]
        exact setRow_diff_length _ _ _
      · intro j hj
        rw [setRow_index] at hj
        exact hj

theorem foldl_table_wfb (f : Table → Nat → Table)
    (hf : ∀ u j, u.wfb = true → (f u j).wfb = true) (l : List Nat) (t : Table)
    (h : t.wfb = true) : (l.foldl f t).wfb = true := by
  induction l generalizing t with
  | nil => exact h
  | cons j l ih => exact ih _ (hf t j h)

theorem delete_wfb (t : Table) (p : Option (Record → Bool))
    (h : t.wfb = true) : (t.delete p).wfb = true := by
  unfold Table.delete
  refine foldl_table_wfb _ ?_ _ _ h
  intro u j hu
  dsimp only
  rcases u.row j with _ | r
  · exact hu
  · dsimp only
    split
    · exact markDelete_wfb u j hu
    · exact hu

theorem update_wfb (t : Table) (p : Option (Record → Bool))
    (ch : List (String × Value)) (h : t.wfb = true) :
    (t.update p ch).wfb = true := by
  unfold Table.update
  refine foldl_table_wfb _ ?_ _ _ h
  intro u j hu
  dsimp only
  rcases u.row j with _ | r
  · exact hu
  · dsimp only
    split
    · exact markUpdate_wfb u j ch hu
    · exact hu

theorem foldl_commitStep_index_sublist (l : List Nat) (t : Table) :
    List.Sublist (l.foldl Table.commitStep t).index t.index := by
  induction l generalizing t with
  | nil => exact List.Sublist.refl _
  | cons j l ih =>
    rw [List.foldl_cons]
    exact (ih _).trans (commitStep_index_sublist t j)

theorem commit_index_sublist (t : Table) :
    List.Sublist (t.commit).index t.index := by
  show List.Sublist (List.foldl Table.commitStep t t.commitOrder).index t.index
  exact foldl_commitStep_index_sublist _ _

theorem commit_wfb (t : Table) (h : t.wfb = true) : (t.commit).wfb = true := by
  rw [wfb_iff] at h ⊢
  obtain ⟨h1, h2⟩ := h
  refine ⟨?_, fun i him => ?_⟩
  · rw [commit_diff, commit_data_length, List.length_replicate]
  · rw [commit_data_length]
    exact h2 i ((commit_index_sublist t).subset him)

theorem rollbackStep_shape (t : Table) (i : Nat) :
    t.rollbackStep i = t
    ∨ t.rollbackStep i = { t with index := t.index.erase i }
    ∨ ∃ v, t.rollbackStep i = { t with data := t.data.set i v } := by
  unfold Table.rollbackStep
  rcases h : t.row i with _ | r
  · exact Or.inl rfl
  · dsimp only
    by_cases h1 : r.state &&& RECORD_STATE_FLAG_CREATE ≠ 0
    · rw [if_pos h1]
      exact Or.inr (Or.inl rfl)
    · rw [if_neg h1]
      exact Or.inr (Or.inr ⟨_, rfl⟩)

theorem rollbackStep_data_length (t : Table) (i : Nat) :
    (t.rollbackStep i).data.length = t.data.length := by
  rcases rollbackStep_shape t i with h | h | ⟨v, h⟩
  · rw [h]
  · rw [h]
  · rw [h]
    simp [List.length_set]

theorem rollbackStep_index_sublist (t : Table) (i : Nat) :
    List.Sublist (t.rollbackStep i).index t.index := by
  rcases rollbackStep_shape t i with h | h | ⟨v, h⟩
  · rw [h]
  · rw [h]
    exact List.erase_sublist _ _
  · rw [h]

theorem foldl_rollbackStep_data_length (l : List Nat) (t : Table) :
    (l.foldl Table.rollbackStep t).data.length = t.data.length := by
  induction l generalizing t with
  | nil => rfl
  | cons j l ih => rw [List.foldl_cons, ih, rollbackStep_data_length]

theorem foldl_rollbackStep_index_sublist (l : List Nat) (t : Table) :
    List.Sublist (l.foldl Table.rollbackStep t).index t.index := by
  induction l generalizing t with
  | nil => exact List.Sublist.refl _
  | cons j l ih =>
    rw [List.foldl_cons]
    exact (ih _).trans (rollbackStep_index_sublist t j)

theorem rollback_wfb (t : Table) (h : t.wfb = true) :
    (t.rollback).wfb = true := by
  rw [wfb_iff] at h ⊢
  obtain ⟨h1, h2⟩ := h
  have hlen : (t.rollback).data.length = t.data.length := by
    show (List.foldl Table.rollbackStep t (List.range t.data.length)).data.length = _
    exact foldl_rollbackStep_data_length _ _
  refine ⟨?_, fun i him => ?_⟩
  · rw [hlen]
    show (List.replicate
      (List.foldl Table.rollbackStep t (List.range t.data.length)).data.length
        (none : Option Record)).length = _
    rw [List.length_replicate, foldl_rollbackStep_data_length]
  · rw [hlen]
    have hsub : List.Sublist (t.rollback).index t.index := by
      show List.Sublist
        (List.foldl Table.rollbackStep t (List.range t.data.length)).index t.index
      exact foldl_rollbackStep_index_sublist _ _
    exact h2 i (hsub.subset him)

theorem pack_wfb (t : Table) : (t.pack).wfb = true := by
  rw [wfb_iff]
  have hdl : (t.pack).data.length = ((t.commit).data.filterMap id).length := by
    simp [Table.pack, List.length_zip, Nat.min_self]
  refine ⟨?_, fun i him => ?_⟩
  · rw [hdl]
    simp [Table.pack]
  · rw [hdl]
    have him2 : i ∈ List.range ((t.commit).data.filterMap id).length := him
    exact List.mem_range.mp him2

theorem insert1_wfb (t : Table) (vs : List (String × Value)) (t2 : Table)
    (h : t.wfb = true) (hok : t.insert1 vs = Except.ok t2) :
    t2.wfb = true := by
  obtain ⟨p, hp, ht2⟩ := insert1_ok t vs t2 hok
  subst ht2
  rw [wfb_iff] at h ⊢
  obtain ⟨h1, h2⟩ := h
  refine ⟨by simp [Table.appendRow, h1], fun i him => ?_⟩
  have : i ∈ t.index ++ [t.data.length] := him
  rcases List.mem_append.mp this with hold | hnew
  · have := h2 i hold
    simp [Table.appendRow]
    omega
  · have : i = t.data.length := List.mem_singleton.mp hnew
    simp [Table.appendRow, this]

theorem truncate_wfb (t : Table) : (t.truncate).wfb = true := rfl

theorem create_wfb (t : Table) (name : String) (schema : List Col)
    (md : List (String × Value)) : (t.create name schema md).wfb = true := rfl

/- Random fetch always returns exactly the requested number of rows when
it terminates. -/

theorem randomFetch_length (index : List Nat) (getter : Nat → Option Record)
    (p : Option (Record → Bool)) (s : Nat → Nat) (fuel : Nat) :
    ∀ size pos rs, randomFetch index getter p s fuel pos size = some rs →
      rs.length = size := by
  intro size
  induction size with
  | zero =>
    intro pos rs h
    cases h
    rfl
  | succ n ih =>
    intro pos rs h
    unfold randomFetch at h
    rcases hd : randomDraw index getter p s pos fuel with _ | ⟨r, pos2⟩ <;>
      rw [hd] at h
    · cases h
    · dsimp only at h
      rcases hf : randomFetch index getter p s fuel pos2 n with _ | rs2 <;>
        rw [hf] at h
      · cases h
      · cases h
        simp [ih _ _ hf]

theorem randomBufferFetch_length (buffer : List Record) (s : Nat → Nat) :
    ∀ size pos rs, randomBufferFetch buffer s pos size = some rs →
      rs.length = size := by
  intro size
  induction size with
  | zero =>
    intro pos rs h
    cases h
    rfl
  | succ n ih =>
    intro pos rs h
    unfold randomBufferFetch at h
    by_cases hb : buffer.length = 0
    · rw [if_pos hb] at h
      cases h
    · rw [if_neg hb] at h
      rcases hf : randomBufferFetch buffer s (pos + 1) n with _ | rs2 <;>
        rw [hf] at h
      · cases h
      · cases h
        simp [ih _ _ hf]

/- The bounds behaviour of `Table.row` as written in the source. -/

theorem rowE_in_range (t : Table) (i : Nat)
    (hwf : t.diff.length = t.data.length) (hi : i < t.data.length) :
    t.rowE i = Except.ok (t.row i) := by
  have h1 : i < t.diff.length := by omega
  obtain ⟨x, hx⟩ : ∃ x, t.diff[i]? = some x := ⟨_, List.getElem?_eq_getElem h1⟩
  obtain ⟨y, hy⟩ : ∃ y, t.data[i]? = some y := ⟨_, List.getElem?_eq_getElem hi⟩
  have hgx : t.diff.getD i none = x := by
    rw [List.getD_eq_getElem?_getD, hx]
    rfl
  have hgy : t.data.getD i none = y := by
    rw [List.getD_eq_getElem?_getD, hy]
    rfl
  unfold Table.rowE Table.row listGetE
  rw [hx, hy, hgx, hgy]
  cases x with
  | none => rfl
  | some r => rfl

theorem rowE_out_of_range (t : Table) (i : Nat)
    (hwf : t.diff.length = t.data.length) (hi : t.data.length ≤ i) :
    t.rowE i = Except.error TableError.indexError := by
  have h1 : t.diff[i]? = none := List.getElem?_eq_none (by omega)
  unfold Table.rowE listGetE
  rw [h1]
  rfl

set_option maxRecDepth 10000

/-- Claim C1 — evaluation of the embedded code at the failing input.  On a
table with one committed row `uid = 1`, `delete()` without commit removes
the id from the index while the committed data array keeps the record
values (only the DELETE state flag is set), as the claim says.  But after
`rollback()` the index is still empty and `select()` still returns nothing:
the deleted row does not reappear, because `Table.rollback` only zeroes the
state flag of a DELETE-staged committed row and never re-adds its id to the
index (the `Record._restore` machinery that would is never invoked).  This
contradicts the claim and the rollback docstring, which says rollback
reverts deletions. -/
theorem claim1_delete_rollback_on_code :
    oneRowTable.index = [0]
    ∧ (oneRowTable.delete none).index = []
    ∧ (oneRowTable.delete none).data =
        [some { id := 0, state := RECORD_STATE_FLAG_DELETE, vals := [Value.int 1] }]
    ∧ ((oneRowTable.delete none).rollback).index = []
    ∧ ((oneRowTable.delete none).rollback).select none none = []
    ∧ ((oneRowTable.delete none).rollback).data =
        [some { id := 0, state := 0, vals := [Value.int 1] }] := by
  refine ⟨?_, ?_, ?_, ?_, ?_, ?_⟩ <;> decide

/-- Claim C2 — counterexample to the stated processing order.  On a staged
two-row table the commit loop iterates `list(range(len(self._data)))`,
i.e. the row ids `[0, 1]` in ascending order, not the descending `[1, 0]`
the claim asserts. -/
theorem claim2_commit_order_counterexample :
    twoRowStaged.commitOrder = [0, 1]
    ∧ twoRowStaged.commitOrder ≠ [1, 0] := by
  constructor <;> decide

/-- Claim C2 (amended) — `Table.commit()` processes row ids in ascending
order (`commitOrder` is exactly `range(len(data))`), and for each row id:
a DELETE-flagged row gets a tombstone in `data` and its id dropped from the
index (idempotently — the removal is a no-op when already absent), a
CREATE- or UPDATE-flagged row has `diff[id]` promoted into `data[id]` with
its state cleared to zero, and afterwards the diff array is reset to
all-empty. -/
theorem claim2_commit_ascending (t : Table) (i : Nat)
    (hi : i < t.data.length) (hnd : t.index.Nodup) :
    t.commitOrder = List.range t.data.length
    ∧ (t.commit).diff = List.replicate t.data.length none
    ∧ (t.commit).row i = t.commitValAt i
    ∧ (∀ r, t.row i = some r → r.state &&& RECORD_STATE_FLAG_DELETE ≠ 0 →
        (t.commit).data.getD i none = none ∧ i ∉ (t.commit).index)
    ∧ (∀ r, t.row i = some r → r.state &&& RECORD_STATE_FLAG_DELETE = 0 →
        r.state &&& (RECORD_STATE_FLAG_CREATE ||| RECORD_STATE_FLAG_UPDATE) ≠ 0 →
        (t.commit).data.getD i none =
          (t.diff.getD i none).map (fun d => { d with state := 0 })) := by
  refine ⟨rfl, commit_diff t, commit_row t i hi, ?_, ?_⟩
  · intro r hr hdel
    constructor
    · rw [commit_data_getD t i hi]
      unfold Table.commitValAt
      rw [hr]
      dsimp only
      rw [if_pos hdel]
    · exact commit_index_delete t i hi hnd r hr hdel
  · intro r hr hdel hcu
    rw [commit_data_getD t i hi]
    unfold Table.commitValAt
    rw [hr]
    dsimp only
    rw [if_neg (by omega), if_pos hcu]

/-- Witness for the amended claim C2 at the staged two-row table and row
id 0 (a CREATE-flagged row): the ascending order, the diff reset, the row
lookup after commit, and the promotion of the staged record into the
committed store. -/
theorem claim2_commit_ascending_witness :
    twoRowStaged.commitOrder = List.range twoRowStaged.data.length
    ∧ (twoRowStaged.commit).diff =
        List.replicate twoRowStaged.data.length none
    ∧ (twoRowStaged.commit).row 0 = twoRowStaged.commitValAt 0
    ∧ (twoRowStaged.commit).data.getD 0 none =
        (twoRowStaged.diff.getD 0 none).map (fun d => { d with state := 0 }) := by
  obtain ⟨h1, h2, h3, h4, h5⟩ :=
    claim2_commit_ascending twoRowStaged 0 (by decide) (by decide)
  refine ⟨h1, h2, h3, ?_⟩
  exact h5 { id := 0, state := RECORD_STATE_FLAG_CREATE, vals := [Value.int 1] }
    (by decide) (by decide) (by decide)

/-- Claim C3 — a commit on a proxy whose mode has the READONLY flag raises
`ProxyError` immediately: the result does not depend on the push action
(so push is never invoked) and the local table is returned exactly as it
was, so its diff, index and every `row(id)` are unchanged. -/
theorem claim3_readonly_commit (pm : Nat)
    (push : Table → Except ProxyError Unit) (t : Table)
    (h : pm &&& PROXY_MODE_FLAG_READONLY ≠ 0) :
    proxyCommit pm push t = (t, Except.error ProxyError.readonlyError) := by
  unfold proxyCommit
  rw [if_pos h]

/-- Witness for claim C3: a READONLY-mode commit on the one-row table. -/
theorem claim3_readonly_commit_witness :
    proxyCommit PROXY_MODE_FLAG_READONLY (fun _ => Except.ok ()) oneRowTable =
      (oneRowTable, Except.error ProxyError.readonlyError) :=
  claim3_readonly_commit _ _ _ (by decide)

/-- Claim C9 — `truncate()` empties exactly the data array, the diff array
and the index, and leaves the record structure, the metadata map and the
table name unchanged. -/
theorem claim9_truncate_frame (t : Table) :
    (t.truncate).data = [] ∧ (t.truncate).diff = [] ∧ (t.truncate).index = []
    ∧ (t.truncate).name = t.name ∧ (t.truncate).schema = t.schema
    ∧ (t.truncate).metadata = t.metadata :=
  ⟨rfl, rfl, rfl, rfl, rfl, rfl⟩

/-- Claim C4 — round-trip: for every sequence of inserts on a freshly
created table followed by `commit()`, `row(id)` of the k-th inserted row
returns a record whose field values are exactly the constructed payload of
that insert (the supplied values, with unspecified columns filled from
their declared defaults), under that row id and with a clean state. -/
theorem claim4_insert_commit_roundtrip (name : String) (cols : List Col)
    (md : List (String × Value)) (rows : List (List (String × Value)))
    (t2 : Table)
    (h : Table.insertAll (Table.create emptyTable name cols md) rows =
      Except.ok t2)
    (k : Nat) (hk : k < rows.length) :
    ∃ p, mkPayload cols (rows.getD k []) = Except.ok p ∧
      (t2.commit).row k = some { id := k, state := 0, vals := p } := by
  have hwf : (Table.create emptyTable name cols md).diff.length =
      (Table.create emptyTable name cols md).data.length := rfl
  obtain ⟨hsch, hwf2, hlen, hpres, hnew⟩ := insertAll_ok_spec rows _ t2 hwf h
  obtain ⟨p, hp, hdg, hag⟩ := hnew k hk
  have hdg2 : t2.diff.getD k none =
      some { id := k, state := RECORD_STATE_FLAG_CREATE, vals := p } := by
    have hdg3 : t2.diff.getD (0 + k) none =
        some { id := 0 + k, state := RECORD_STATE_FLAG_CREATE, vals := p } := hdg
    rw [Nat.zero_add] at hdg3
    exact hdg3
  have hlen2 : t2.data.length = 0 + rows.length := hlen
  have hkl : k < t2.data.length := by omega
  refine ⟨p, hp, ?_⟩
  rw [commit_row t2 k hkl]
  have hrow : t2.row k =
      some { id := k, state := RECORD_STATE_FLAG_CREATE, vals := p } := by
    unfold Table.row
    rw [hdg2]
  unfold Table.commitValAt
  rw [hrow]
  dsimp only
  rw [if_neg (by decide), if_pos (by decide), hdg2]
  rfl

/-- Concrete insert batch for the claim C4 witness: the second row omits
`gid` (filled from its declared default `0`) and omits nothing else. -/
def c4Rows : List (List (String × Value)) :=
  [[("uid", Value.int 5)], [("uid", Value.int 7), ("name", Value.str "ab")]]

/-- The table holding the staged claim C4 witness inserts. -/
def c4Table : Table :=
  match Table.insertAll (Table.create emptyTable "t4" scenarioCols []) c4Rows with
  | Except.ok t => t
  | Except.error _ => emptyTable

/-- Witness for claim C4 at the two-row insert batch, reading back row 1. -/
theorem claim4_insert_commit_roundtrip_witness :
    ∃ p, mkPayload scenarioCols (c4Rows.getD 1 []) = Except.ok p ∧
      (c4Table.commit).row 1 = some { id := 1, state := 0, vals := p } :=
  claim4_insert_commit_roundtrip "t4" scenarioCols [] c4Rows c4Table
    (by rfl) 1 (by decide)

/-- Claim C5 — commit ordering of a non-READONLY proxy: with the
INCREMENTAL flag, push is applied to the table as it is before the local
commit, and a push failure returns the local table unchanged (the local
commit never runs); without the flag, the local commit runs first and the
push acts on the already-committed local table. -/
theorem claim5_proxy_commit_order (pm : Nat)
    (push : Table → Except ProxyError Unit) (t : Table)
    (hro : pm &&& PROXY_MODE_FLAG_READONLY = 0) :
    (pm &&& PROXY_MODE_FLAG_INCREMENTAL ≠ 0 →
      proxyCommit pm push t =
        match push t with
        | Except.error e => (t, Except.error e)
        | Except.ok _ => (t.commit, Except.ok ()))
    ∧ (pm &&& PROXY_MODE_FLAG_INCREMENTAL = 0 →
      proxyCommit pm push t = (t.commit, push t.commit)) := by
  constructor
  · intro hinc
    unfold proxyCommit
    rw [if_neg (fun hcon => hcon hro), if_pos hinc]
  · intro hinc0
    unfold proxyCommit
    rw [if_neg (fun hcon => hcon hro), if_neg (fun hcon => hcon hinc0)]

/-- Witness for claim C5: a failing push on an INCREMENTAL proxy leaves the
local table exactly as it was, and a successful push on a plain (CACHE-less,
non-incremental) proxy happens after the local commit. -/
theorem claim5_proxy_commit_order_witness :
    proxyCommit PROXY_MODE_FLAG_INCREMENTAL
        (fun _ => Except.error ProxyError.pushError) oneRowTable =
      (oneRowTable, Except.error ProxyError.pushError)
    ∧ proxyCommit 0 (fun _ => Except.ok ()) oneRowTable =
      (oneRowTable.commit, Except.ok ()) := by
  constructor
  · exact (claim5_proxy_commit_order _ _ _ (by decide)).1 (by decide)
  · exact (claim5_proxy_commit_order _ _ _ (by decide)).2 (by decide)

/-- Claim C6 — cursor mode errors: constructing a cursor with a sorter and
a mode word lacking the BUFFERED flag fails with `CursorModeError`;
constructing with a sorter and a mode word including the RANDOM flag fails
with `CursorModeError`; and `fetch` with a non-positive size (such as
`fetch(-1)`) on a RANDOM-mode cursor fails with `CursorModeError`. -/
theorem claim6_cursor_mode_errors (index : List Nat)
    (getter : Nat → Option Record) (p : Option (Record → Bool))
    (f : List Record → List Record) (mode : Nat) (c : Cursor) (s : Nat → Nat)
    (fuel : Nat) (size : Int) :
    (mode &&& CURSOR_MODE_FLAG_BUFFERED = 0 →
      Cursor.make index getter p (some f) (some mode) =
        Except.error CursorError.modeError)
    ∧ (mode &&& CURSOR_MODE_FLAG_RANDOM ≠ 0 →
      Cursor.make index getter p (some f) (some mode) =
        Except.error CursorError.modeError)
    ∧ (c.mode &&& CURSOR_MODE_FLAG_RANDOM ≠ 0 → size ≤ 0 →
      c.fetch getter p s fuel size =
        some (Except.error CursorError.modeError)) := by
  refine ⟨?_, ?_, ?_⟩
  · intro h0
    unfold Cursor.make cursorCheckValidity
    dsimp only
    rw [if_pos ⟨rfl, h0⟩]
    rfl
  · intro h0
    unfold Cursor.make cursorCheckValidity
    dsimp only
    by_cases hb : mode &&& CURSOR_MODE_FLAG_BUFFERED = 0
    · rw [if_pos ⟨rfl, hb⟩]
      rfl
    · rw [if_neg (fun hcon => hb hcon.2), if_pos ⟨rfl, h0⟩]
      rfl
  · intro h0 hsize
    unfold Cursor.fetch
    rw [if_pos ⟨h0, hsize⟩]

/-- Witness for claim C6: a sorter with the plain indexed mode, a sorter
with a random-and-buffered mode, and `fetch(-1)` on a random cursor. -/
theorem claim6_cursor_mode_errors_witness :
    Cursor.make [] (fun _ => none) none (some id)
        (some CURSOR_MODE_FLAG_INDEXED) =
      Except.error CursorError.modeError
    ∧ Cursor.make [] (fun _ => none) none (some id)
        (some (CURSOR_MODE_FLAG_RANDOM ||| CURSOR_MODE_FLAG_BUFFERED)) =
      Except.error CursorError.modeError
    ∧ Cursor.fetch
        { mode := CURSOR_MODE_FLAG_RANDOM, index := [], buffer := [] }
        (fun _ => none) none (fun _ => 0) 0 (-1) =
      some (Except.error CursorError.modeError) := by
  refine ⟨?_, ?_, ?_⟩
  · exact (claim6_cursor_mode_errors [] (fun _ => none) none id
      CURSOR_MODE_FLAG_INDEXED
      { mode := 0, index := [], buffer := [] } (fun _ => 0) 0 0).1 (by decide)
  · exact (claim6_cursor_mode_errors [] (fun _ => none) none id
      (CURSOR_MODE_FLAG_RANDOM ||| CURSOR_MODE_FLAG_BUFFERED)
      { mode := 0, index := [], buffer := [] } (fun _ => 0) 0 0).2.1 (by decide)
  · exact (claim6_cursor_mode_errors [] (fun _ => none) none id 0
      { mode := CURSOR_MODE_FLAG_RANDOM, index := [], buffer := [] }
      (fun _ => 0) 0 (-1)).2.2 (by decide) (by decide)

/-- The table with two committed rows where row 0 is tombstoned but not yet
packed: `row(0)` is genuinely absent here. -/
def tombstonedTable : Table :=
  match Table.insertAll (Table.create emptyTable "t8" uidCols [])
      [[("uid", Value.int 10)], [("uid", Value.int 20)]] with
  | Except.ok t =>
    Table.commit
      (Table.delete t.commit
        (some (fun r => r.vals.getD 0 (Value.int 0) == Value.int 10)))
  | Except.error _ => emptyTable

/-- Claim C8 — counterexample.  Before `pack()` the tombstoned id 0 is
absent, as the claim says; but after `pack()` physically compacts that row
away, `row(0)` is not absent: it returns a record (the survivor formerly
holding id 1, renumbered to 0).  So an id that was compacted away by
`pack()` does not yield an absent result. -/
theorem claim8_row_counterexample :
    tombstonedTable.rowE 0 = Except.ok none
    ∧ packedTable.rowE 0 =
        Except.ok (some { id := 0, state := 0, vals := [Value.int 20] })
    ∧ (Except.ok (some { id := 0, state := 0, vals := [Value.int 20] }) :
        Except TableError (Option Record)) ≠ Except.ok none := by
  refine ⟨rfl, rfl, ?_⟩
  intro hcon
  injection hcon with h2
  cases h2

/-- Claim C8 (amended) — for a well-formed table, `row(id)` returns
`diff[id]` when the diff slot is set and `data[id]` otherwise (absent
exactly when both slots are empty, i.e. a committed tombstone); an id that
is out of range — never inserted, or beyond the data length after `pack()`
compacted rows away — raises `IndexError`, while an in-range id after
`pack()` resolves to whatever row now occupies that slot. -/
theorem claim8_row_amended (t : Table) (i : Nat)
    (hwf : t.diff.length = t.data.length) :
    (i < t.data.length → t.rowE i = Except.ok (t.row i))
    ∧ (t.data.length ≤ i →
        t.rowE i = Except.error TableError.indexError) :=
  ⟨fun hi => rowE_in_range t i hwf hi, fun hi => rowE_out_of_range t i hwf hi⟩

/-- Witness for the amended claim C8 on the packed table: the surviving
in-range id resolves through diff-then-data, and an out-of-range id raises
`IndexError`. -/
theorem claim8_row_amended_witness :
    packedTable.rowE 0 = Except.ok (packedTable.row 0)
    ∧ packedTable.rowE 5 = Except.error TableError.indexError :=
  ⟨(claim8_row_amended packedTable 0 (by decide)).1 (by decide),
   (claim8_row_amended packedTable 5 (by decide)).2 (by decide)⟩

/-- Claim C7 — Scenario A: on the 52-row table with `gid = i % 3`,
`select(where = gid == 1)` along the (static or indexed, non-random)
cursor path returns exactly 17 rows, and `fetch(10)` on the equivalent
random-mode cursor returns exactly 10 rows (drawn with replacement)
whenever the draw loop terminates, for every draw stream and fuel bound. -/
theorem claim7_scenario_a (s : Nat → Nat) (fuel : Nat) (c : Cursor)
    (rows : List Record)
    (hc : Cursor.make scenarioTable.index scenarioTable.row (some gidIs1) none
        (some (CURSOR_MODE_FLAG_RANDOM ||| CURSOR_MODE_FLAG_INDEXED)) =
      Except.ok c)
    (hf : c.fetch scenarioTable.row (some gidIs1) s fuel 10 =
      some (Except.ok rows)) :
    (scenarioTable.select none (some gidIs1)).length = 17
    ∧ rows.length = 10 := by
  have hmk : Cursor.make scenarioTable.index scenarioTable.row (some gidIs1)
      none (some (CURSOR_MODE_FLAG_RANDOM ||| CURSOR_MODE_FLAG_INDEXED)) =
      Except.ok
        { mode := CURSOR_MODE_FLAG_RANDOM ||| CURSOR_MODE_FLAG_INDEXED,
          index := scenarioTable.index, buffer := [] } := rfl
  rw [hmk] at hc
  injection hc with hc2
  subst hc2
  refine ⟨by decide, ?_⟩
  unfold Cursor.fetch at hf
  rw [if_neg (by decide), if_pos (by decide), if_neg (by decide)] at hf
  rcases hr : randomFetch scenarioTable.index scenarioTable.row (some gidIs1)
      s fuel 0 (Int.toNat 10) with _ | rs2 <;> rw [hr] at hf
  · cases hf
  · have heq : rs2 = rows := by
      simp at hf
      exact hf
    subst heq
    exact randomFetch_length scenarioTable.index scenarioTable.row
      (some gidIs1) s fuel (Int.toNat 10) 0 rs2 hr

/-- The concrete random cursor of the claim C7 witness. -/
def c7Cursor : Cursor :=
  { mode := CURSOR_MODE_FLAG_RANDOM ||| CURSOR_MODE_FLAG_INDEXED,
    index := scenarioTable.index, buffer := [] }

/-- The rows the claim C7 witness stream draws: ten copies of row 1. -/
def c7Rows : List Record :=
  List.replicate 10
    { id := 1, state := 0, vals := [Value.int 1, Value.str "", Value.int 1] }

/-- Witness for claim C7 with the constant draw stream hitting row 1 (a
`gid = 1` row) on every draw. -/
theorem claim7_scenario_a_witness :
    (scenarioTable.select none (some gidIs1)).length = 17
    ∧ c7Rows.length = 10 :=
  claim7_scenario_a (fun _ => 1) 1 c7Cursor c7Rows rfl (by rfl)

/-- Claim C10 — the structural invariant (diff as long as data, every
indexed id a valid data position) is established by `create` and preserved
by every public verb: `truncate`, `insert`, `update`, `delete`, `commit`,
`rollback` and `pack`. -/
theorem claim10_invariants (t : Table) (h : t.wfb = true) :
    (∀ name schema md, (t.create name schema md).wfb = true)
    ∧ (t.truncate).wfb = true
    ∧ (∀ vs t2, t.insert1 vs = Except.ok t2 → t2.wfb = true)
    ∧ (∀ p ch, (t.update p ch).wfb = true)
    ∧ (∀ p, (t.delete p).wfb = true)
    ∧ (t.commit).wfb = true
    ∧ (t.rollback).wfb = true
    ∧ (t.pack).wfb = true :=
  ⟨fun n sc m => create_wfb t n sc m, truncate_wfb t,
   fun vs t2 hok => insert1_wfb t vs t2 h hok,
   fun p ch => update_wfb t p ch h,
   fun p => delete_wfb t p h,
   commit_wfb t h, rollback_wfb t h, pack_wfb t⟩

/-- A freshly created single-column table for the claim C10 witness. -/
def c10Table : Table := Table.create emptyTable "tw" uidCols []

/-- The claim C10 witness table after one insert. -/
def c10Inserted : Table :=
  match c10Table.insert1 [("uid", Value.int 3)] with
  | Except.ok t => t
  | Except.error _ => emptyTable

/-- Witness for claim C10 on a concrete table: the invariant survives
truncate, insert, delete, commit, rollback and pack. -/
theorem claim10_invariants_witness :
    (c10Table.truncate).wfb = true
    ∧ c10Inserted.wfb = true
    ∧ (c10Table.delete none).wfb = true
    ∧ (c10Table.commit).wfb = true
    ∧ (c10Table.rollback).wfb = true
    ∧ (c10Table.pack).wfb = true := by
  obtain ⟨h1, h2, h3, h4, h5, h6, h7, h8⟩ :=
    claim10_invariants c10Table (by decide)
  exact ⟨h2, h3 [("uid", Value.int 3)] c10Inserted (by rfl), h5 none, h6, h7, h8⟩

end NemoaDb
